import Mathlib

/-!
# Verification of the kai journal-encryption core

Shallow embedding of the per-user envelope-encryption subsystem:
`src/backend/src/security/encryption.py`, `src/backend/src/security/journal_encryption.py`
and the password-change workflow of `src/backend/src/api/auth.py`.

Modelling conventions:
* Byte strings (`bytes`) are `List Nat` with every element `< 256`.
* Python's `str.encode("utf-8")` / `bytes.decode("utf-8")` are modelled by an
  explicit UTF-8 encoder/decoder over Unicode codepoints.
* Python functions that can raise are embedded as `Except`-valued functions.
* The external cryptographic primitives (PBKDF2-HMAC-SHA256, SHA-256, Fernet,
  bcrypt) are third-party library code, not part of this repository; they are
  modelled symbolically, keeping exactly the properties their contracts give:
  determinism and fixed output size for the KDF, an ideal collision-free digest
  for SHA-256, and an ideal authenticated cipher for Fernet (a token carries
  its key, fresh nonce and payload; decryption succeeds only under the exact
  encrypting key).  The base64 encodings surrounding them are modelled exactly.
-/

namespace Kai

set_option maxRecDepth 100000

/-! ## UTF-8: model of Python `str.encode("utf-8")` / `bytes.decode("utf-8")` -/

/-- UTF-8 encoding of a single Unicode codepoint (1 to 4 bytes). -/
def utf8EncodeChar (c : Nat) : List Nat :=
  if c < 128 then [c]
  else if c < 2048 then [192 + c / 64, 128 + c % 64]
  else if c < 65536 then [224 + c / 4096, 128 + c / 64 % 64, 128 + c % 64]
  else [240 + c / 262144, 128 + c / 4096 % 64, 128 + c / 64 % 64, 128 + c % 64]

/-- Model of Python `s.encode("utf-8")`: the concatenated UTF-8 bytes of the
codepoints of `s`. -/
def utf8Encode (s : String) : List Nat :=
  (s.data.map fun ch => utf8EncodeChar ch.toNat).flatten

/-- One strict UTF-8 decoding step: given a leading byte `b` and the remaining
bytes, return the decoded codepoint and the unconsumed suffix.  Rejects stray
continuation bytes, truncated sequences, overlong encodings, surrogates and
codepoints above 0x10FFFF, as Python `bytes.decode("utf-8")` does. -/
def utf8DecodeStep (b : Nat) (bs : List Nat) : Option (Nat × List Nat) :=
  if b < 128 then some (b, bs)
  else if b < 192 then none
  else if b < 224 then
    match bs with
    | b1 :: bs1 =>
      if 128 ≤ b1 ∧ b1 < 192 ∧ 128 ≤ (b - 192) * 64 + (b1 - 128) then
        some ((b - 192) * 64 + (b1 - 128), bs1)
      else none
    | [] => none
  else if b < 240 then
    match bs with
    | b1 :: b2 :: bs2 =>
      if 128 ≤ b1 ∧ b1 < 192 ∧ 128 ≤ b2 ∧ b2 < 192 ∧
          2048 ≤ (b - 224) * 4096 + (b1 - 128) * 64 + (b2 - 128) ∧
          ((b - 224) * 4096 + (b1 - 128) * 64 + (b2 - 128) < 55296 ∨
            57343 < (b - 224) * 4096 + (b1 - 128) * 64 + (b2 - 128)) then
        some ((b - 224) * 4096 + (b1 - 128) * 64 + (b2 - 128), bs2)
      else none
    | _ => none
  else if b < 245 then
    match bs with
    | b1 :: b2 :: b3 :: bs3 =>
      if 128 ≤ b1 ∧ b1 < 192 ∧ 128 ≤ b2 ∧ b2 < 192 ∧ 128 ≤ b3 ∧ b3 < 192 ∧
          65536 ≤ (b - 240) * 262144 + (b1 - 128) * 4096 + (b2 - 128) * 64 + (b3 - 128) ∧
          (b - 240) * 262144 + (b1 - 128) * 4096 + (b2 - 128) * 64 + (b3 - 128) < 1114112 then
        some ((b - 240) * 262144 + (b1 - 128) * 4096 + (b2 - 128) * 64 + (b3 - 128), bs3)
      else none
    | _ => none
  else none

/-- The decoding step never lengthens the input. -/
theorem utf8DecodeStep_length {b : Nat} {bs rest : List Nat} {c : Nat}
    (h : utf8DecodeStep b bs = some (c, rest)) : rest.length ≤ bs.length := by
  unfold utf8DecodeStep at h
  repeat' split at h
  all_goals simp_all
  all_goals omega

/-- Strict UTF-8 decoding of a byte list into codepoints, as Python
`bytes.decode("utf-8")`. -/
def utf8Decode (l : List Nat) : Option (List Nat) :=
  match l with
  | [] => some []
  | b :: bs =>
    match h : utf8DecodeStep b bs with
    | some (c, rest) => (utf8Decode rest).map (c :: ·)
    | none => none
termination_by l.length
decreasing_by
  have := utf8DecodeStep_length h
  simp only [List.length_cons]
  omega

/-- Rebuild a `String` from decoded codepoints (all valid by construction of
`utf8Decode`). -/
def stringOfCodepoints (l : List Nat) : String :=
  String.mk (l.map Char.ofNat)

/-! ## Base64: model of Python `base64.b64decode` / `base64.urlsafe_b64encode` /
`base64.urlsafe_b64decode` -/

/-- ASCII code of the character for a 6-bit value in the standard base64
alphabet (`A-Z`, `a-z`, `0-9`, `+`, `/`). -/
def b64StdChar (v : Nat) : Nat :=
  if v < 26 then 65 + v
  else if v < 52 then 71 + v
  else if v < 62 then v - 4
  else if v = 62 then 43
  else 47

/-- ASCII code of the character for a 6-bit value in the url-safe base64
alphabet (`A-Z`, `a-z`, `0-9`, `-`, `_`). -/
def b64UrlChar (v : Nat) : Nat :=
  if v < 62 then b64StdChar v
  else if v = 62 then 45
  else 95

/-- Inverse character lookup for the standard base64 alphabet. -/
def b64StdVal (c : Nat) : Option Nat :=
  if 65 ≤ c ∧ c ≤ 90 then some (c - 65)
  else if 97 ≤ c ∧ c ≤ 122 then some (c - 71)
  else if 48 ≤ c ∧ c ≤ 57 then some (c + 4)
  else if c = 43 then some 62
  else if c = 47 then some 63
  else none

/-- Inverse character lookup for the url-safe base64 alphabet. -/
def b64UrlVal (c : Nat) : Option Nat :=
  if 65 ≤ c ∧ c ≤ 90 then some (c - 65)
  else if 97 ≤ c ∧ c ≤ 122 then some (c - 71)
  else if 48 ≤ c ∧ c ≤ 57 then some (c + 4)
  else if c = 45 then some 62
  else if c = 95 then some 63
  else none

/-- Base64-encode a byte list under the alphabet `enc`, padding the final
group with `=` (ASCII 61) as Python's encoders do. -/
def b64encodeBytes (enc : Nat → Nat) : List Nat → List Nat
  | [] => []
  | [b1] => [enc (b1 / 4), enc (b1 % 4 * 16), 61, 61]
  | [b1, b2] => [enc (b1 / 4), enc (b1 % 4 * 16 + b2 / 16), enc (b2 % 16 * 4), 61]
  | b1 :: b2 :: b3 :: rest =>
    enc (b1 / 4) :: enc (b1 % 4 * 16 + b2 / 16) :: enc (b2 % 16 * 4 + b3 / 64) ::
      enc (b3 % 64) :: b64encodeBytes enc rest

/-- Strict four-character-group base64 decoding under the inverse alphabet
`val`, the exact inverse of `b64encodeBytes`.  It models the
`base64.urlsafe_b64decode` inside the `Fernet(key)` constructor's key check:
every key this embedding feeds that check is an exact output of the encoder,
and on exact encoder outputs strict and non-strict base64 decoding agree. -/
def b64decodeBytes (val : Nat → Option Nat) : List Nat → Option (List Nat)
  | [] => some []
  | c1 :: c2 :: c3 :: c4 :: rest =>
    match val c1, val c2 with
    | some v1, some v2 =>
      if c3 = 61 then
        if c4 = 61 ∧ rest = [] then some [v1 * 4 + v2 / 16] else none
      else
        match val c3 with
        | some v3 =>
          if c4 = 61 then
            if rest = [] then some [v1 * 4 + v2 / 16, v2 % 16 * 16 + v3 / 4] else none
          else
            match val c4 with
            | some v4 =>
              (b64decodeBytes val rest).map
                fun tl => (v1 * 4 + v2 / 16) :: (v2 % 16 * 16 + v3 / 4) :: (v3 % 4 * 64 + v4) :: tl
            | none => none
        | none => none
    | _, _ => none
  | _ => none

/-- The loop of CPython 3.11's non-strict `binascii.a2b_base64` (the default
mode of `base64.b64decode`): bytes outside the alphabet are skipped; a
padding byte `=` is skipped while the current group holds fewer than two data
characters, and otherwise finishes the decode — ignoring all remaining
input — once the group position plus the accumulated padding reaches four;
reaching the end of input inside a partial group raises `binascii.Error`
(`none` here).  `quad_pos`, `leftchar` and `pads` are the loop state of the C
implementation, and partial-group bits are discarded exactly as there. -/
def a2bBase64 (val : Nat → Option Nat) :
    List Nat → Nat → Nat → Nat → Option (List Nat)
  | [], quad_pos, _, _ => if quad_pos = 0 then some [] else none
  | c :: rest, quad_pos, leftchar, pads =>
    if c = 61 then
      if 2 ≤ quad_pos then
        if 4 ≤ quad_pos + (pads + 1) then some []
        else a2bBase64 val rest quad_pos leftchar (pads + 1)
      else a2bBase64 val rest quad_pos leftchar pads
    else
      match val c with
      | none => a2bBase64 val rest quad_pos leftchar pads
      | some v =>
        match quad_pos with
        | 0 => a2bBase64 val rest 1 v 0
        | 1 => (a2bBase64 val rest 2 (v % 16) 0).map ((leftchar * 4 + v / 16) :: ·)
        | 2 => (a2bBase64 val rest 3 (v % 4) 0).map ((leftchar * 16 + v / 4) :: ·)
        | _ => (a2bBase64 val rest 0 0 0).map ((leftchar * 64 + v) :: ·)

/-- Model of `base64.b64decode(user_salt.encode("utf-8"))` as called by
`derive_encryption_key`: the UTF-8 bytes of the salt fed to the non-strict
base64 decoder. -/
def b64decodeString (s : String) : Option (List Nat) :=
  a2bBase64 b64StdVal (utf8Encode s) 0 0 0

/-! ## External cryptographic primitives (symbolic stand-ins)

These model third-party library calls (`cryptography`, `hashlib`, bcrypt via
the auth layer), which are not source code of this repository.  Only the
contractual properties matter to the claims: the KDF is deterministic and
returns exactly 32 bytes; the digest is deterministic and collision-free. -/

/-- Stand-in for `PBKDF2(algorithm=SHA256, length=32, salt, iterations).derive
(password)`: a deterministic function of `(password, salt, iterations)`
returning exactly 32 bytes.  The concrete mixing below is arbitrary; no
theorem depends on anything beyond determinism, output length and byte range. -/
def pbkdf2Sha256 (password : List Nat) (salt : List Nat) (iterations : Nat)
    (length : Nat) : List Nat :=
  (List.range length).map fun i =>
    (password.foldl (fun a b => (a * 31 + b + 1) % 256)
      (salt.foldl (fun a b => (a * 37 + b + 1) % 256) ((i + iterations) % 256))) % 256

/-- Stand-in for `hashlib.sha256(key).hexdigest()`: an ideal collision-free
one-way digest.  The embedding only ever compares digests for equality, so any
injective function is a faithful model; we use the identity on byte lists. -/
def sha256Hexdigest (bs : List Nat) : List Nat := bs

/-- Stand-in for the auth layer's bcrypt `get_password_hash`: an injective
tag of the password (the workflow only feeds it to `verify_password`). -/
def get_password_hash (password : String) : String :=
  String.append "bcrypt:" password

/-- Stand-in for the auth layer's bcrypt `verify_password`. -/
def verify_password (plain_password : String) (hashed_password : String) : Bool :=
  get_password_hash plain_password == hashed_password

/-! ## `src/backend/src/security/encryption.py` -/

/-- The two exception classes of `encryption.py`: `EncryptionError` (base) and
`DecryptionError`. -/
inductive CryptoError where
  | encryptionError : CryptoError
  | decryptionError : CryptoError
deriving DecidableEq

/-- `MASTER_SALT = b"kai_wellness_platform_master_salt_v1"` (ASCII bytes). -/
def MASTER_SALT : List Nat :=
  "kai_wellness_platform_master_salt_v1".data.map Char.toNat

/-- `PBKDF2_ITERATIONS = 600_000`. -/
def PBKDF2_ITERATIONS : Nat := 600000

/-- `derive_encryption_key(password, user_salt)`: base64-decode the user salt
(the only fallible step of the `try` block — failure becomes
`EncryptionError`), append `MASTER_SALT`, run PBKDF2 over the UTF-8 bytes of
the password, and return `base64.urlsafe_b64encode` of the 32-byte key. -/
def derive_encryption_key (password : String) (user_salt : String) :
    Except CryptoError (List Nat) :=
  match b64decodeString user_salt with
  | none => .error .encryptionError
  | some salt_bytes =>
    let combined_salt := salt_bytes ++ MASTER_SALT
    let key := pbkdf2Sha256 (utf8Encode password) combined_salt PBKDF2_ITERATIONS 32
    .ok (b64encodeBytes b64UrlChar key)

/-- `hash_encryption_key(encryption_key)`: digest of the key, stored for
verification only. -/
def hash_encryption_key (encryption_key : List Nat) : List Nat :=
  sha256Hexdigest encryption_key

/-- A Fernet ciphertext as stored in a text column.  `emptyStr` is the empty
string (the explicit empty-plaintext special case); `fernet key nonce payload`
is a well-formed token, carrying symbolically the key that produced it, the
fresh random IV drawn by that `encrypt` call, and the encrypted byte payload
(distinct constructor arguments model distinct token strings); `garbled`
is any other string. -/
inductive FernetToken where
  | emptyStr : FernetToken
  | fernet (key : List Nat) (nonce : Nat) (payload : List Nat) : FernetToken
  | garbled (s : String) : FernetToken
deriving DecidableEq

/-- The `Fernet(key)` constructor's key check: the key must
url-safe-base64-decode to exactly 32 bytes, else `ValueError`. -/
def validFernetKey (key : List Nat) : Bool :=
  match b64decodeBytes b64UrlVal key with
  | some raw => raw.length == 32
  | none => false

/-- `encrypt_data(data, encryption_key)`: empty data short-circuits to the
empty token before any cipher work; otherwise `Fernet(key)` is built (an
invalid key raises, caught as `EncryptionError`) and a token with a fresh
random IV is produced.  The fresh randomness is passed explicitly as
`nonce`. -/
def encrypt_data (data : String) (encryption_key : List Nat) (nonce : Nat) :
    Except CryptoError FernetToken :=
  if data = "" then .ok .emptyStr
  else if validFernetKey encryption_key then
    .ok (.fernet encryption_key nonce (utf8Encode data))
  else .error .encryptionError

/-- `decrypt_data(encrypted_data, encryption_key)`: empty input short-circuits
to `""` before any cipher work; otherwise `Fernet(key)` is built (invalid key:
generic exception, caught as `DecryptionError`), the token is authenticated
(wrong key or malformed token: `InvalidToken`, surfaced as
`DecryptionError`), and the plaintext bytes are UTF-8-decoded (failure is the
generic `except`, again `DecryptionError`). -/
def decrypt_data (encrypted_data : FernetToken) (encryption_key : List Nat) :
    Except CryptoError String :=
  match encrypted_data with
  | .emptyStr => .ok ""
  | .fernet key _ payload =>
    if validFernetKey encryption_key then
      if key = encryption_key then
        match utf8Decode payload with
        | some cps => .ok (stringOfCodepoints cps)
        | none => .error .decryptionError
      else .error .decryptionError
    else .error .decryptionError
  | .garbled _ => .error .decryptionError

/-- `rotate_encryption_key(old_password, new_password, user_salt,
encrypted_data)`: derive the old key, decrypt, derive the new key, re-encrypt,
and return `(new_token, new_key, new_key_hash)`.  The salt is the same for
both derivations and is not modified. -/
def rotate_encryption_key (old_password new_password user_salt : String)
    (encrypted_data : FernetToken) (nonce : Nat) :
    Except CryptoError (FernetToken × List Nat × List Nat) :=
  match derive_encryption_key old_password user_salt with
  | .error e => .error e
  | .ok old_key =>
    match decrypt_data encrypted_data old_key with
    | .error e => .error e
    | .ok decrypted_data =>
      match derive_encryption_key new_password user_salt with
      | .error e => .error e
      | .ok new_key =>
        match encrypt_data decrypted_data new_key nonce with
        | .error e => .error e
        | .ok new_encrypted_data =>
          .ok (new_encrypted_data, new_key, hash_encryption_key new_key)

/-- The `EncryptionService` class: derived key and its hash, both fixed at
construction. -/
structure EncryptionService where
  encryption_key : List Nat
  key_hash : List Nat
deriving DecidableEq

/-- `EncryptionService.__init__(password, user_salt)` (key derivation may
raise, so construction is `Except`-valued). -/
def EncryptionService.make (password : String) (user_salt : String) :
    Except CryptoError EncryptionService :=
  (derive_encryption_key password user_salt).map fun k =>
    { encryption_key := k, key_hash := hash_encryption_key k }

/-- `EncryptionService.encrypt(data)`. -/
def EncryptionService.encrypt (svc : EncryptionService) (data : String)
    (nonce : Nat) : Except CryptoError FernetToken :=
  encrypt_data data svc.encryption_key nonce

/-- `EncryptionService.decrypt(encrypted_data)`. -/
def EncryptionService.decrypt (svc : EncryptionService)
    (encrypted_data : FernetToken) : Except CryptoError String :=
  decrypt_data encrypted_data svc.encryption_key

/-- `EncryptionService.verify_key(stored_key_hash)`. -/
def EncryptionService.verify_key (svc : EncryptionService)
    (stored_key_hash : List Nat) : Bool :=
  svc.key_hash == stored_key_hash

/-- `verify_and_get_encryption_key(password, user_salt, stored_key_hash)`:
derive and hash inside a `try` whose `except Exception` returns `None`; the
key is returned only when the hash matches the stored hash. -/
def verify_and_get_encryption_key (password user_salt : String)
    (stored_key_hash : List Nat) : Option (List Nat) :=
  match derive_encryption_key password user_salt with
  | .error _ => none
  | .ok encryption_key =>
    if hash_encryption_key encryption_key = stored_key_hash then some encryption_key
    else none

/-! ## `src/backend/src/security/journal_encryption.py` -/

/-- The three encryption-relevant fields of the `JournalEntry` ORM row.
`encrypted_content` is a nullable text column holding a token string. -/
structure JournalEntry where
  content : Option String
  encrypted_content : Option FernetToken
  is_encrypted : Bool
deriving DecidableEq

/-- Python truthiness of the nullable string field `content`
(`None` and `""` are falsy). -/
def strTruthy : Option String → Bool
  | none => false
  | some s => s ≠ ""

/-- Python truthiness of the nullable token field `encrypted_content`
(`None` and the empty string are falsy). -/
def tokTruthy : Option FernetToken → Bool
  | none => false
  | some t => t ≠ .emptyStr

/-- `encrypt_journal_entry(entry, encryption_service)`: when `entry.content`
is truthy and the entry is not yet encrypted, store the ciphertext, set the
flag and clear the plaintext; otherwise leave the entry unchanged.  The
in-place mutation is embedded as returning the updated record; an exception
from `encrypt` propagates. -/
def encrypt_journal_entry (entry : JournalEntry) (svc : EncryptionService)
    (nonce : Nat) : Except CryptoError JournalEntry :=
  match entry.content with
  | some c =>
    if c ≠ "" ∧ entry.is_encrypted = false then
      (svc.encrypt c nonce).map fun tok =>
        { content := none, encrypted_content := some tok, is_encrypted := true }
    else .ok entry
  | none => .ok entry

/-- `decrypt_journal_entry_in_place(entry, encryption_service)`: when the
entry is encrypted with a truthy ciphertext, set `content` to the decrypted
text (leaving `encrypted_content` and `is_encrypted` untouched); `elif not
entry.content`, fall back to the empty string; otherwise leave it as is. -/
def decrypt_journal_entry_in_place (entry : JournalEntry)
    (svc : EncryptionService) : Except CryptoError JournalEntry :=
  if entry.is_encrypted = true ∧ tokTruthy entry.encrypted_content = true then
    match entry.encrypted_content with
    | some tok => (svc.decrypt tok).map fun s => { entry with content := some s }
    | none => .ok entry
  else if strTruthy entry.content = false then .ok { entry with content := some "" }
  else .ok entry

/-! ## `src/backend/src/api/auth.py`: the `change_password` workflow

The route handler is embedded as a transition on the persisted state it
touches (the user row and the user's journal rows).  The ORM session is a
transaction committed once at the end; raising after `db.rollback()` (or
raising with no commit) leaves the persisted state exactly as it was, which
the embedding renders by returning the input state together with the error.
Session-row deletion (token invalidation) is orthogonal to every claim and is
not part of the state. -/

/-- The encryption-relevant columns of the `User` row. -/
structure UserRec where
  password_hash : String
  encryption_salt : Option String
  encryption_key_hash : Option (List Nat)
deriving DecidableEq

/-- Persisted state touched by `change_password`: the user row and all of the
user's journal entries. -/
structure DBState where
  user : UserRec
  entries : List JournalEntry
deriving DecidableEq

/-- Outcomes of `change_password` other than success: HTTP 401 for a wrong
old password, HTTP 500 from the `except` around the rotation loop, and the
uncaught error of the final re-derivation. -/
inductive PwChangeError where
  | incorrectOldPassword : PwChangeError
  | keyRotationFailed : PwChangeError
  | keyDerivationFailed : PwChangeError
deriving DecidableEq

/-- The rotation loop of `change_password`: every entry with
`is_encrypted == True` (the query filter) and truthy `encrypted_content` is
re-encrypted via `rotate_encryption_key`, consuming one fresh IV per call; the
first failure aborts the whole loop.  Entries outside the filter pass through
unchanged. -/
def rotateEntries (old_password new_password user_salt : String) :
    List JournalEntry → Nat → Except CryptoError (List JournalEntry)
  | [], _ => .ok []
  | e :: es, nonce =>
    match e.encrypted_content with
    | some tok =>
      if e.is_encrypted = true ∧ tok ≠ .emptyStr then
        match rotate_encryption_key old_password new_password user_salt tok nonce with
        | .error err => .error err
        | .ok (tok2, _, _) =>
          (rotateEntries old_password new_password user_salt es (nonce + 1)).map
            fun es2 => { e with encrypted_content := some tok2 } :: es2
      else
        (rotateEntries old_password new_password user_salt es nonce).map (e :: ·)
    | none =>
      (rotateEntries old_password new_password user_salt es nonce).map (e :: ·)

/-- The `change_password` route body: verify the old password (else 401);
stage the new login-password hash; when the user has encryption configured
(both fields truthy), rotate every encrypted entry — on any failure roll back
and raise 500 with the persisted state untouched — then re-derive the new key
and stage the new key hash; finally commit everything at once.  `nonce0`
seeds the fresh IVs of the rotation loop. -/
def change_password (old_password new_password : String) (st : DBState)
    (nonce0 : Nat) : DBState × Option PwChangeError :=
  if verify_password old_password st.user.password_hash = false then
    (st, some .incorrectOldPassword)
  else
    let user1 : UserRec := { st.user with password_hash := get_password_hash new_password }
    match st.user.encryption_salt, st.user.encryption_key_hash with
    | some salt, some kh =>
      if salt ≠ "" ∧ kh ≠ [] then
        match rotateEntries old_password new_password salt st.entries nonce0 with
        | .error _ => (st, some .keyRotationFailed)
        | .ok entries2 =>
          match derive_encryption_key new_password salt with
          | .error _ => (st, some .keyDerivationFailed)
          | .ok new_key =>
            let user2 : UserRec :=
              { user1 with encryption_key_hash := some (hash_encryption_key new_key) }
            ({ user := user2, entries := entries2 }, none)
      else ({ st with user := user1 }, none)
    | _, _ => ({ st with user := user1 }, none)

/-! ## Concrete instances used to exercise the theorems -/

/-- The key derived from a concrete password and salt (empty on derivation
failure); used to instantiate theorems at concrete inputs. -/
def keyFor (pw salt : String) : List Nat :=
  match derive_encryption_key pw salt with
  | .ok k => k
  | .error _ => []

/-- A concrete well-formed user salt (base64 of three zero bytes). -/
def wSalt : String := "AAAA"

/-- A journal row whose stored ciphertext is not a valid token. -/
def wBadEntry : JournalEntry :=
  { content := none, encrypted_content := some (.garbled "not a token"),
    is_encrypted := true }

/-- A concrete persisted state: a user with encryption configured and one
undecryptable encrypted journal row. -/
def wState : DBState :=
  { user := { password_hash := get_password_hash "oldpw",
              encryption_salt := some wSalt,
              encryption_key_hash := some (keyFor "oldpw" wSalt) },
    entries := [wBadEntry] }

/-- The `EncryptionService` built from password `"a"` and the empty salt. -/
def wSvcA : EncryptionService :=
  { encryption_key := keyFor "a" "",
    key_hash := hash_encryption_key (keyFor "a" "") }

/-- The `EncryptionService` built from password `"b"` and the empty salt. -/
def wSvcB : EncryptionService :=
  { encryption_key := keyFor "b" "",
    key_hash := hash_encryption_key (keyFor "b" "") }

/-- A concrete unencrypted journal row with nonempty content. -/
def wPlainEntry : JournalEntry :=
  { content := some "Dear diary", encrypted_content := none, is_encrypted := false }

/-! ## Lemmas: UTF-8 round-trip -/

/-- The decoding step inverts the single-character encoder: the encoding of a
valid codepoint followed by any suffix steps to that codepoint with exactly
the suffix left over. -/
theorem utf8DecodeStep_encodeChar {c : Nat} (h : Nat.isValidChar c) (bs : List Nat) :
    ∃ b rest, utf8EncodeChar c ++ bs = b :: rest ∧ utf8DecodeStep b rest = some (c, bs) := by
  have hv : c < 55296 ∨ (57343 < c ∧ c < 1114112) := h
  by_cases hc1 : c < 128
  · refine ⟨c, bs, by simp [utf8EncodeChar, hc1], ?_⟩
    rw [utf8DecodeStep.eq_def, if_pos hc1]
  · by_cases hc2 : c < 2048
    · refine ⟨192 + c / 64, (128 + c % 64) :: bs,
        by simp [utf8EncodeChar, hc1, hc2], ?_⟩
      have e1 : ¬ (192 + c / 64 < 128) := by omega
      have e2 : ¬ (192 + c / 64 < 192) := by omega
      have e3 : 192 + c / 64 < 224 := by omega
      have e4 : 128 ≤ 128 + c % 64 := by omega
      have e5 : 128 + c % 64 < 192 := by omega
      have hval : (192 + c / 64 - 192) * 64 + (128 + c % 64 - 128) = c := by omega
      simp only [utf8DecodeStep.eq_def, e1, e2, e3, e4, e5, if_true, if_false, ite_true,
        ite_false, and_true, true_and, and_self, hval]
      rw [if_pos (by omega)]
    · by_cases hc3 : c < 65536
      · refine ⟨224 + c / 4096, (128 + c / 64 % 64) :: (128 + c % 64) :: bs,
          by simp [utf8EncodeChar, hc1, hc2, hc3], ?_⟩
        have e1 : ¬ (224 + c / 4096 < 128) := by omega
        have e2 : ¬ (224 + c / 4096 < 192) := by omega
        have e3 : ¬ (224 + c / 4096 < 224) := by omega
        have e4 : 224 + c / 4096 < 240 := by omega
        have e5 : 128 ≤ 128 + c / 64 % 64 := by omega
        have e6 : 128 + c / 64 % 64 < 192 := by omega
        have e7 : 128 ≤ 128 + c % 64 := by omega
        have e8 : 128 + c % 64 < 192 := by omega
        have hval : (224 + c / 4096 - 224) * 4096 + (128 + c / 64 % 64 - 128) * 64 +
            (128 + c % 64 - 128) = c := by omega
        simp only [utf8DecodeStep.eq_def, e1, e2, e3, e4, e5, e6, e7, e8, if_true, if_false,
          ite_true, ite_false, and_true, true_and, and_self, hval]
        rw [if_pos (by refine ⟨by omega, ?_⟩; omega)]
      · refine ⟨240 + c / 262144,
          (128 + c / 4096 % 64) :: (128 + c / 64 % 64) :: (128 + c % 64) :: bs,
          by simp [utf8EncodeChar, hc1, hc2, hc3], ?_⟩
        have e1 : ¬ (240 + c / 262144 < 128) := by omega
        have e2 : ¬ (240 + c / 262144 < 192) := by omega
        have e3 : ¬ (240 + c / 262144 < 224) := by omega
        have e4 : ¬ (240 + c / 262144 < 240) := by omega
        have e5 : 240 + c / 262144 < 245 := by omega
        have e6 : 128 ≤ 128 + c / 4096 % 64 := by omega
        have e7 : 128 + c / 4096 % 64 < 192 := by omega
        have e8 : 128 ≤ 128 + c / 64 % 64 := by omega
        have e9 : 128 + c / 64 % 64 < 192 := by omega
        have e10 : 128 ≤ 128 + c % 64 := by omega
        have e11 : 128 + c % 64 < 192 := by omega
        have hval : (240 + c / 262144 - 240) * 262144 + (128 + c / 4096 % 64 - 128) * 4096 +
            (128 + c / 64 % 64 - 128) * 64 + (128 + c % 64 - 128) = c := by omega
        simp only [utf8DecodeStep.eq_def, e1, e2, e3, e4, e5, e6, e7, e8, e9, e10, e11,
          if_true, if_false, ite_true, ite_false, and_true, true_and, and_self, hval]
        rw [if_pos (by refine ⟨by omega, ?_⟩; omega)]

/-- Decoding the UTF-8 encoding of one valid codepoint prepended to any byte
suffix recovers that codepoint. -/
theorem utf8Decode_encodeChar {c : Nat} (h : Nat.isValidChar c) (bs : List Nat) :
    utf8Decode (utf8EncodeChar c ++ bs) = (utf8Decode bs).map (c :: ·) := by
  obtain ⟨b, rest, heq, hstep⟩ := utf8DecodeStep_encodeChar h bs
  rw [heq, utf8Decode, hstep]

/-- Decoding the concatenated UTF-8 encodings of a character list prepended to
any byte suffix recovers the codepoints of those characters. -/
theorem utf8Decode_flatten (cs : List Char) (bs : List Nat) :
    utf8Decode ((cs.map fun ch => utf8EncodeChar ch.toNat).flatten ++ bs)
      = (utf8Decode bs).map (fun tl => cs.map Char.toNat ++ tl) := by
  induction cs with
  | nil => cases hd : utf8Decode bs <;> simp [hd]
  | cons ch cs ih =>
    have hv : Nat.isValidChar ch.toNat := ch.valid
    simp only [List.map_cons, List.flatten_cons, List.append_assoc]
    rw [utf8Decode_encodeChar hv, ih]
    cases hd : utf8Decode bs <;> simp [hd]

/-- UTF-8 round-trip at the codepoint level, for every Lean `String` (hence
for every sequence of Unicode scalar values, multi-byte characters
included). -/
theorem utf8Decode_utf8Encode (s : String) :
    utf8Decode (utf8Encode s) = some (s.data.map Char.toNat) := by
  have h := utf8Decode_flatten s.data []
  rw [List.append_nil] at h
  rw [utf8Encode, h]
  simp [utf8Decode]

/-- Rebuilding a string from the codepoints of its characters is the
identity. -/
theorem stringOfCodepoints_map_toNat (s : String) :
    stringOfCodepoints (s.data.map Char.toNat) = s := by
  have h : ∀ c : Char, Char.ofNat c.toNat = c := Char.ofNat_toNat
  simp only [stringOfCodepoints, List.map_map, Function.comp_def, h]
  simp

/-! ## Lemmas: base64 round-trip and length -/

/-- The url-safe alphabet lookup inverts the url-safe alphabet encoding. -/
theorem b64UrlVal_b64UrlChar {v : Nat} (h : v < 64) :
    b64UrlVal (b64UrlChar v) = some v := by
  simp only [b64UrlChar, b64StdChar, b64UrlVal]
  split_ifs <;> first
    | (exfalso; omega)
    | (simp only [Option.some.injEq]; omega)

/-- No url-safe alphabet character is the padding character `=`. -/
theorem b64UrlChar_ne_61 {v : Nat} (h : v < 64) : b64UrlChar v ≠ 61 := by
  simp only [b64UrlChar, b64StdChar]
  split_ifs <;> omega

/-- An induction principle matching the three-bytes-per-group recursion of
base64 encoding. -/
theorem list3Induction {α : Type} (motive : List α → Prop) (h0 : motive [])
    (h1 : ∀ a, motive [a]) (h2 : ∀ a b, motive [a, b])
    (h3 : ∀ a b c l, motive l → motive (a :: b :: c :: l)) : ∀ l, motive l
  | [] => h0
  | [a] => h1 a
  | [a, b] => h2 a b
  | a :: b :: c :: l => h3 a b c l (list3Induction motive h0 h1 h2 h3 l)

/-- Url-safe base64 decoding inverts url-safe base64 encoding on byte
lists. -/
theorem b64decodeBytes_encodeBytes (bs : List Nat) (hb : ∀ b ∈ bs, b < 256) :
    b64decodeBytes b64UrlVal (b64encodeBytes b64UrlChar bs) = some bs := by
  induction bs using list3Induction with
  | h0 => rfl
  | h1 a =>
    have ha : a < 256 := hb a (by simp)
    have hv1 : b64UrlVal (b64UrlChar (a / 4)) = some (a / 4) :=
      b64UrlVal_b64UrlChar (by omega)
    have hv2 : b64UrlVal (b64UrlChar (a % 4 * 16)) = some (a % 4 * 16) :=
      b64UrlVal_b64UrlChar (by omega)
    simp only [b64encodeBytes, b64decodeBytes, hv1, hv2, if_pos rfl, and_self, ite_true,
      Option.some.injEq, List.cons.injEq, and_true]
    omega
  | h2 a b =>
    have ha : a < 256 := hb a (by simp)
    have hbb : b < 256 := hb b (by simp)
    have hv1 : b64UrlVal (b64UrlChar (a / 4)) = some (a / 4) :=
      b64UrlVal_b64UrlChar (by omega)
    have hv2 : b64UrlVal (b64UrlChar (a % 4 * 16 + b / 16)) = some (a % 4 * 16 + b / 16) :=
      b64UrlVal_b64UrlChar (by omega)
    have hv3 : b64UrlVal (b64UrlChar (b % 16 * 4)) = some (b % 16 * 4) :=
      b64UrlVal_b64UrlChar (by omega)
    have hne : b64UrlChar (b % 16 * 4) ≠ 61 := b64UrlChar_ne_61 (by omega)
    simp only [b64encodeBytes, b64decodeBytes, hv1, hv2, hv3, hne, if_pos rfl, if_false,
      ite_true, ite_false, and_self, Option.some.injEq, List.cons.injEq, and_true]
    omega
  | h3 a b c l ih =>
    have ha : a < 256 := hb a (by simp)
    have hbb : b < 256 := hb b (by simp)
    have hcc : c < 256 := hb c (by simp)
    have hl : ∀ x ∈ l, x < 256 := fun x hx => hb x (by simp [hx])
    have hv1 : b64UrlVal (b64UrlChar (a / 4)) = some (a / 4) :=
      b64UrlVal_b64UrlChar (by omega)
    have hv2 : b64UrlVal (b64UrlChar (a % 4 * 16 + b / 16)) = some (a % 4 * 16 + b / 16) :=
      b64UrlVal_b64UrlChar (by omega)
    have hv3 : b64UrlVal (b64UrlChar (b % 16 * 4 + c / 64)) = some (b % 16 * 4 + c / 64) :=
      b64UrlVal_b64UrlChar (by omega)
    have hv4 : b64UrlVal (b64UrlChar (c % 64)) = some (c % 64) :=
      b64UrlVal_b64UrlChar (by omega)
    have hne3 : b64UrlChar (b % 16 * 4 + c / 64) ≠ 61 := b64UrlChar_ne_61 (by omega)
    have hne4 : b64UrlChar (c % 64) ≠ 61 := b64UrlChar_ne_61 (by omega)
    simp only [b64encodeBytes, b64decodeBytes, hv1, hv2, hv3, hv4, hne3, hne4, ih hl,
      if_false, ite_false, Option.some.injEq, List.cons.injEq, and_true]
    simp only [Option.map_some', Option.some.injEq, List.cons.injEq, and_true]
    omega

/-- Base64 encoding produces four output characters for every (possibly
partial) group of three input bytes. -/
theorem b64encodeBytes_length (enc : Nat → Nat) (bs : List Nat) :
    (b64encodeBytes enc bs).length = 4 * ((bs.length + 2) / 3) := by
  induction bs using list3Induction with
  | h0 => rfl
  | h1 a => rw [b64encodeBytes]; simp
  | h2 a b => rw [b64encodeBytes]; simp
  | h3 a b c l ih =>
    rw [b64encodeBytes]
    simp only [List.length_cons, ih]
    omega

/-! ### Behavior checks of the non-strict salt decoder against CPython 3.11

Each equation below reproduces an observed `base64.b64decode` result on an
irregular input (excess, leading or mid-stream padding, or a partial final
group). -/

/-- Trailing excess padding is accepted: `b64decode(b"AAAA=")` returns three
zero bytes. -/
theorem b64decodeString_excess_pad : b64decodeString "AAAA=" = some [0, 0, 0] := rfl

/-- Padding with no data decodes to the empty byte string: `b64decode(b"====")`
returns the empty byte string. -/
theorem b64decodeString_only_pads : b64decodeString "====" = some [] := rfl

/-- A completed pad sequence ends the decode and the remaining input is
ignored: `b64decode(b"AA==AAAA")` returns one zero byte. -/
theorem b64decodeString_stops_after_pad : b64decodeString "AA==AAAA" = some [0] := rfl

/-- Leading and excess padding are skipped: `b64decode(b"=AAAA===")` returns
three zero bytes. -/
theorem b64decodeString_leading_pad : b64decodeString "=AAAA===" = some [0, 0, 0] := rfl

/-- A lone data character leaves a partial group and raises
`binascii.Error`. -/
theorem b64decodeString_lone_char : b64decodeString "x" = none := rfl

/-- A well-formed padded group decodes normally: `b64decode(b"QUJD")` is
`b"ABC"` (bytes 65, 66, 67). -/
theorem b64decodeString_regular : b64decodeString "QUJD" = some [65, 66, 67] := rfl

/-! ## Lemmas: key derivation and key validity -/

/-- The KDF stand-in returns exactly the requested number of bytes. -/
theorem pbkdf2Sha256_length (p s : List Nat) (it len : Nat) :
    (pbkdf2Sha256 p s it len).length = len := by
  simp [pbkdf2Sha256]

/-- The KDF stand-in returns bytes. -/
theorem pbkdf2Sha256_lt (p s : List Nat) (it len : Nat) :
    ∀ b ∈ pbkdf2Sha256 p s it len, b < 256 := by
  intro b hbmem
  simp only [pbkdf2Sha256, List.mem_map] at hbmem
  obtain ⟨i, _, rfl⟩ := hbmem
  exact Nat.mod_lt _ (by omega)

/-- Structure of a successfully derived key: the salt base64-decoded, and the
result is the url-safe base64 encoding of the 32 PBKDF2 bytes over the salt
extended by `MASTER_SALT`. -/
theorem derive_encryption_key_ok {pw salt : String} {k : List Nat}
    (h : derive_encryption_key pw salt = .ok k) :
    ∃ sb, b64decodeString salt = some sb ∧
      k = b64encodeBytes b64UrlChar
        (pbkdf2Sha256 (utf8Encode pw) (sb ++ MASTER_SALT) PBKDF2_ITERATIONS 32) := by
  unfold derive_encryption_key at h
  cases hsb : b64decodeString salt with
  | none => rw [hsb] at h; exact absurd h (by simp)
  | some sb =>
    rw [hsb] at h
    simp only [Except.ok.injEq] at h
    exact ⟨sb, rfl, h.symm⟩

/-- A key produced by `derive_encryption_key` passes the `Fernet` constructor
key check. -/
theorem validFernetKey_of_derive {pw salt : String} {k : List Nat}
    (h : derive_encryption_key pw salt = .ok k) : validFernetKey k = true := by
  obtain ⟨sb, _, rfl⟩ := derive_encryption_key_ok h
  unfold validFernetKey
  rw [b64decodeBytes_encodeBytes _ (pbkdf2Sha256_lt _ _ _ _)]
  simp [pbkdf2Sha256_length]

/-- A key produced by `derive_encryption_key` is 44 bytes long (the url-safe
base64 encoding of 32 raw bytes). -/
theorem derive_encryption_key_length {pw salt : String} {k : List Nat}
    (h : derive_encryption_key pw salt = .ok k) : k.length = 44 := by
  obtain ⟨sb, _, rfl⟩ := derive_encryption_key_ok h
  rw [b64encodeBytes_length, pbkdf2Sha256_length]

/-! ## Lemmas: the authenticated cipher -/

/-- Round-trip of the cipher under any key accepted by the `Fernet`
constructor, empty plaintext included. -/
theorem decrypt_data_encrypt_data (s : String) (k : List Nat) (n : Nat)
    (hk : validFernetKey k = true) :
    ∃ tok, encrypt_data s k n = .ok tok ∧ decrypt_data tok k = .ok s := by
  by_cases hs : s = ""
  · subst hs
    exact ⟨.emptyStr, rfl, rfl⟩
  · refine ⟨.fernet k n (utf8Encode s), ?_, ?_⟩
    · unfold encrypt_data
      rw [if_neg hs, if_pos hk]
    · simp only [decrypt_data, hk, ite_true, if_pos rfl, utf8Decode_utf8Encode,
        stringOfCodepoints_map_toNat]

/-- Decrypting a nonempty-plaintext token under any key other than the
encrypting key fails with `DecryptionError`. -/
theorem decrypt_data_wrong_key {s : String} {kA kB : List Nat} {n : Nat}
    {tok : FernetToken} (hs : s ≠ "") (henc : encrypt_data s kA n = .ok tok)
    (hne : kA ≠ kB) : decrypt_data tok kB = .error .decryptionError := by
  unfold encrypt_data at henc
  rw [if_neg hs] at henc
  by_cases hk : validFernetKey kA = true
  · rw [if_pos hk] at henc
    simp only [Except.ok.injEq] at henc
    subst henc
    simp only [decrypt_data]
    by_cases hkB : validFernetKey kB = true
    · rw [if_pos hkB, if_neg hne]
    · rw [if_neg hkB]
  · rw [if_neg hk] at henc
    exact absurd henc (by simp)

/-- Unpacking a successful `EncryptionService` construction. -/
theorem EncryptionService.make_ok {pw salt : String} {svc : EncryptionService}
    (h : EncryptionService.make pw salt = .ok svc) :
    derive_encryption_key pw salt = .ok svc.encryption_key ∧
      svc.key_hash = hash_encryption_key svc.encryption_key := by
  unfold EncryptionService.make at h
  cases hd : derive_encryption_key pw salt with
  | error e => rw [hd] at h; exact absurd h (by simp [Except.map])
  | ok k =>
    rw [hd] at h
    simp only [Except.map, Except.ok.injEq] at h
    subst h
    exact ⟨by simpa using hd, rfl⟩

/-- Shape of a successful encryption of nonempty plaintext: a fresh token
carrying the key, the fresh IV and the UTF-8 payload. -/
theorem encrypt_data_eq {s : String} {k : List Nat} (n : Nat) (hs : s ≠ "")
    (hk : validFernetKey k = true) :
    encrypt_data s k n = .ok (.fernet k n (utf8Encode s)) := by
  unfold encrypt_data
  rw [if_neg hs, if_pos hk]

/-- Decrypting a token under its own (valid) key recovers the plaintext. -/
theorem decrypt_data_fernet_same (k : List Nat) (n : Nat) (s : String)
    (hk : validFernetKey k = true) :
    decrypt_data (.fernet k n (utf8Encode s)) k = .ok s := by
  simp only [decrypt_data, hk, ite_true, if_pos rfl, utf8Decode_utf8Encode,
    stringOfCodepoints_map_toNat]

/-! ## Lemmas: rotation -/

/-- A decryption failure under the old key makes `rotate_encryption_key` fail
with that error, whatever the fresh IV. -/
theorem rotate_encryption_key_error_of_decrypt {old_pw new_pw salt : String}
    {oldKey : List Nat} {tok : FernetToken} {err : CryptoError}
    (hold : derive_encryption_key old_pw salt = .ok oldKey)
    (hdec : decrypt_data tok oldKey = .error err) (n : Nat) :
    rotate_encryption_key old_pw new_pw salt tok n = .error err := by
  unfold rotate_encryption_key
  simp only [hold, hdec]

/-- If some entry of the batch is encrypted with a truthy ciphertext that
fails to decrypt under the old key, the whole rotation loop fails, whatever
the IV counter. -/
theorem rotateEntries_error_of_mem {old_pw salt : String} (new_pw : String)
    {oldKey : List Nat} {e : JournalEntry} {tok : FernetToken} {err : CryptoError}
    (hold : derive_encryption_key old_pw salt = .ok oldKey)
    (henc : e.is_encrypted = true) (htok : e.encrypted_content = some tok)
    (hdec : decrypt_data tok oldKey = .error err) :
    ∀ es : List JournalEntry, e ∈ es → ∀ n : Nat,
      ∃ err2, rotateEntries old_pw new_pw salt es n = .error err2 := by
  have htne : tok ≠ .emptyStr := by
    intro hteq
    rw [hteq] at hdec
    exact absurd hdec (by simp [decrypt_data])
  intro es
  induction es with
  | nil => intro hmem; exact absurd hmem (by simp)
  | cons e1 es ih =>
    intro hmem n
    rcases List.mem_cons.mp hmem with heq | hmem2
    · subst heq
      refine ⟨err, ?_⟩
      rw [rotateEntries]
      simp only [htok, henc, htne, ne_eq, not_false_eq_true, and_self, ite_true,
        rotate_encryption_key_error_of_decrypt hold hdec n]
    · cases hc : e1.encrypted_content with
      | none =>
        obtain ⟨err2, h2⟩ := ih hmem2 n
        refine ⟨err2, ?_⟩
        rw [rotateEntries]
        simp only [hc, h2, Except.map]
      | some t =>
        by_cases hcond : e1.is_encrypted = true ∧ t ≠ FernetToken.emptyStr
        · cases hr : rotate_encryption_key old_pw new_pw salt t n with
          | error e2 =>
            refine ⟨e2, ?_⟩
            rw [rotateEntries]
            simp only [hc, if_pos hcond, hr]
          | ok trip =>
            obtain ⟨tok2, k2, h2p⟩ := trip
            obtain ⟨err2, h2⟩ := ih hmem2 (n + 1)
            refine ⟨err2, ?_⟩
            rw [rotateEntries]
            simp only [hc, if_pos hcond, hr, h2, Except.map]
        · obtain ⟨err2, h2⟩ := ih hmem2 n
          refine ⟨err2, ?_⟩
          rw [rotateEntries]
          simp only [hc, if_neg hcond, h2, Except.map]

/-! ## Claim theorems -/

/-- C1: during the password-change workflow, if any one of the user's
encrypted journal records fails to decrypt under the key derived from the old
password, the whole rotation is aborted with the rotation error and the
persisted state — every record's stored ciphertext and the account's stored
key hash — is exactly what it was before the attempt. -/
theorem change_password_rotation_atomic
    (old_pw new_pw : String) (st : DBState) (n0 : Nat) (salt : String)
    (kh oldKey : List Nat) (e : JournalEntry) (tok : FernetToken) (err : CryptoError)
    (hverify : verify_password old_pw st.user.password_hash = true)
    (hsalt : st.user.encryption_salt = some salt) (hsalt0 : salt ≠ "")
    (hkh : st.user.encryption_key_hash = some kh) (hkh0 : kh ≠ [])
    (hold : derive_encryption_key old_pw salt = .ok oldKey)
    (hmem : e ∈ st.entries) (henc : e.is_encrypted = true)
    (htok : e.encrypted_content = some tok)
    (hdec : decrypt_data tok oldKey = .error err) :
    change_password old_pw new_pw st n0 = (st, some .keyRotationFailed) := by
  obtain ⟨err2, hrot⟩ := rotateEntries_error_of_mem new_pw hold henc htok hdec st.entries hmem n0
  unfold change_password
  rw [if_neg (show ¬ verify_password old_pw st.user.password_hash = false by
    rw [hverify]; simp)]
  simp only [hsalt, hkh]
  rw [if_pos ⟨hsalt0, hkh0⟩]
  simp only [hrot]

/-- C1 witness: a concrete state with one garbled encrypted record; the
password change aborts with the rotation error and returns the state
unchanged. -/
theorem change_password_rotation_atomic_witness :
    change_password "oldpw" "newpw" wState 0 = (wState, some PwChangeError.keyRotationFailed) :=
  change_password_rotation_atomic "oldpw" "newpw" wState 0 wSalt
    (keyFor "oldpw" wSalt) (keyFor "oldpw" wSalt) wBadEntry (.garbled "not a token")
    .decryptionError (by decide) rfl (by decide) rfl (by decide) rfl (by decide)
    rfl rfl rfl

/-- C2: for every string `s` (empty and multi-byte unicode included) and
every key obtained from `derive_encryption_key`, decrypting the encryption of
`s` under that same key returns exactly `s`. -/
theorem encrypt_decrypt_roundtrip (s pw salt : String) (k : List Nat) (n : Nat)
    (h : derive_encryption_key pw salt = .ok k) :
    ∃ tok, encrypt_data s k n = .ok tok ∧ decrypt_data tok k = .ok s :=
  decrypt_data_encrypt_data s k n (validFernetKey_of_derive h)

/-- C2 witness: the round-trip at a concrete emoji-bearing string and the key
derived from password `"a"` and the empty salt. -/
theorem encrypt_decrypt_roundtrip_witness :
    ∃ tok, encrypt_data "I felt the waves 🌊" (keyFor "a" "") 3 = .ok tok ∧
      decrypt_data tok (keyFor "a" "") = .ok "I felt the waves 🌊" :=
  encrypt_decrypt_roundtrip "I felt the waves 🌊" "a" "" (keyFor "a" "") 3 rfl

/-- C3 (amended): for every nonempty string `s`, decrypting the encryption of
`s` under any key other than the encrypting key raises `DecryptionError` —
never garbage plaintext.  (For `s = ""` the stored token is the empty string,
which `decrypt_data` maps to `""` under every key; see the
counterexample.) -/
theorem decrypt_wrong_key_rejects_nonempty (s : String) (kA kB : List Nat)
    (n : Nat) (tok : FernetToken) (hs : s ≠ "")
    (henc : encrypt_data s kA n = .ok tok) (hne : kA ≠ kB) :
    decrypt_data tok kB = .error .decryptionError :=
  decrypt_data_wrong_key hs henc hne

/-- C3 witness: a concrete nonempty plaintext encrypted under the key for
password `"a"` is rejected under the key for password `"b"`. -/
theorem decrypt_wrong_key_rejects_nonempty_witness :
    decrypt_data (FernetToken.fernet (keyFor "a" "") 5 (utf8Encode "secret"))
      (keyFor "b" "") = .error .decryptionError :=
  decrypt_wrong_key_rejects_nonempty "secret" (keyFor "a" "") (keyFor "b" "") 5
    (FernetToken.fernet (keyFor "a" "") 5 (utf8Encode "secret")) (by decide) rfl
    (by decide)

/-- C3 counterexample: for the empty string the claim fails — the two derived
keys differ, yet decrypting `encrypt_data "" keyA` under `keyB` returns
`.ok ""` instead of raising `DecryptionError`, because both `encrypt_data`
and `decrypt_data` short-circuit on the empty string. -/
theorem decrypt_wrong_key_empty_string_cex :
    keyFor "a" "" ≠ keyFor "b" "" ∧
    encrypt_data "" (keyFor "a" "") 0 = .ok .emptyStr ∧
    decrypt_data .emptyStr (keyFor "b" "") = .ok "" :=
  ⟨by decide, rfl, rfl⟩

/-- C4 (amended): for every nonempty plaintext encrypted under the old key,
provided the old and new derived keys differ, rotation returns a token that
decrypts to the original plaintext under the new key and raises
`DecryptionError` under the old key; the salt is a fixed parameter that
rotation never modifies.  (For the empty plaintext the rotated token is again
the empty string and decrypts to `""` under the old key too; see the
counterexample.) -/
theorem rotate_key_correct_nonempty (old_pw new_pw salt s : String)
    (kOld kNew : List Nat) (tok : FernetToken) (n0 n1 : Nat)
    (hOld : derive_encryption_key old_pw salt = .ok kOld)
    (hNew : derive_encryption_key new_pw salt = .ok kNew)
    (hs : s ≠ "") (hkk : kOld ≠ kNew)
    (htok : encrypt_data s kOld n0 = .ok tok) :
    ∃ tok2, rotate_encryption_key old_pw new_pw salt tok n1 =
        .ok (tok2, kNew, hash_encryption_key kNew) ∧
      decrypt_data tok2 kNew = .ok s ∧
      decrypt_data tok2 kOld = .error .decryptionError := by
  have hkOldv := validFernetKey_of_derive hOld
  have hkNewv := validFernetKey_of_derive hNew
  rw [encrypt_data_eq n0 hs hkOldv] at htok
  have htok2 := (Except.ok.inj htok).symm
  subst htok2
  refine ⟨.fernet kNew n1 (utf8Encode s), ?_, decrypt_data_fernet_same kNew n1 s hkNewv,
    decrypt_data_wrong_key hs (encrypt_data_eq n1 hs hkNewv) (Ne.symm hkk)⟩
  unfold rotate_encryption_key
  simp only [hOld, decrypt_data_fernet_same kOld n0 s hkOldv, hNew,
    encrypt_data_eq n1 hs hkNewv]

/-- C4 witness: rotating a concrete nonempty plaintext from password `"a"` to
password `"b"` over the empty salt. -/
theorem rotate_key_correct_nonempty_witness :
    ∃ tok2, rotate_encryption_key "a" "b" ""
        (FernetToken.fernet (keyFor "a" "") 0 (utf8Encode "msg")) 1 =
        .ok (tok2, keyFor "b" "", hash_encryption_key (keyFor "b" "")) ∧
      decrypt_data tok2 (keyFor "b" "") = .ok "msg" ∧
      decrypt_data tok2 (keyFor "a" "") = .error .decryptionError :=
  rotate_key_correct_nonempty "a" "b" "" "msg" (keyFor "a" "") (keyFor "b" "")
    (FernetToken.fernet (keyFor "a" "") 0 (utf8Encode "msg")) 0 1 rfl rfl
    (by decide) (by decide) rfl

/-- C4 counterexample: for the empty plaintext the claim fails — rotation
succeeds, but the rotated token still decrypts (to `""`) under the old key
instead of raising `DecryptionError`. -/
theorem rotate_empty_plaintext_cex :
    encrypt_data "" (keyFor "a" "") 0 = .ok .emptyStr ∧
    rotate_encryption_key "a" "b" "" .emptyStr 1 =
      .ok (.emptyStr, keyFor "b" "", hash_encryption_key (keyFor "b" "")) ∧
    decrypt_data .emptyStr (keyFor "a" "") = .ok "" :=
  ⟨rfl, rfl, rfl⟩

/-- C5 (amended): for every nonempty plaintext and every key accepted by the
cipher, two calls with distinct fresh IVs yield distinct tokens, both of
which decrypt back to the plaintext.  (For the empty plaintext both calls
return the same empty token; see the counterexample.) -/
theorem encrypt_nondeterministic_nonempty (s : String) (k : List Nat)
    (n1 n2 : Nat) (hs : s ≠ "") (hk : validFernetKey k = true) (hn : n1 ≠ n2) :
    ∃ t1 t2, encrypt_data s k n1 = .ok t1 ∧ encrypt_data s k n2 = .ok t2 ∧
      t1 ≠ t2 ∧ decrypt_data t1 k = .ok s ∧ decrypt_data t2 k = .ok s := by
  refine ⟨.fernet k n1 (utf8Encode s), .fernet k n2 (utf8Encode s),
    encrypt_data_eq n1 hs hk, encrypt_data_eq n2 hs hk, ?_,
    decrypt_data_fernet_same k n1 s hk, decrypt_data_fernet_same k n2 s hk⟩
  simp [hn]

/-- C5 witness: two concrete encryptions of the same nonempty plaintext under
the same derived key with distinct IVs. -/
theorem encrypt_nondeterministic_nonempty_witness :
    ∃ t1 t2, encrypt_data "hello" (keyFor "a" "") 0 = .ok t1 ∧
      encrypt_data "hello" (keyFor "a" "") 1 = .ok t2 ∧ t1 ≠ t2 ∧
      decrypt_data t1 (keyFor "a" "") = .ok "hello" ∧
      decrypt_data t2 (keyFor "a" "") = .ok "hello" :=
  encrypt_nondeterministic_nonempty "hello" (keyFor "a" "") 0 1 (by decide)
    (by decide) (by decide)

/-- C5 counterexample: for the empty plaintext the claim fails — two calls
with distinct fresh IVs return the very same (empty) token. -/
theorem encrypt_empty_deterministic_cex :
    (0 : Nat) ≠ 1 ∧
    encrypt_data "" (keyFor "a" "") 0 = encrypt_data "" (keyFor "a" "") 1 :=
  ⟨by decide, rfl⟩

/-- C6: on a record with nonempty content and `is_encrypted = false`,
`encrypt_journal_entry` yields a record with `is_encrypted = true`, cleared
plaintext and populated ciphertext; `decrypt_journal_entry_in_place` on that
record with the same service restores the original text while leaving the
ciphertext and the flag unchanged. -/
theorem journal_encrypt_decrypt_postconditions (p salt : String)
    (svc : EncryptionService) (entry : JournalEntry) (c : String) (n : Nat)
    (hsvc : EncryptionService.make p salt = .ok svc)
    (hc : entry.content = some c) (hcne : c ≠ "")
    (hencf : entry.is_encrypted = false) :
    ∃ e1 e2 : JournalEntry,
      encrypt_journal_entry entry svc n = .ok e1 ∧
      e1.is_encrypted = true ∧ e1.content = none ∧ e1.encrypted_content ≠ none ∧
      decrypt_journal_entry_in_place e1 svc = .ok e2 ∧
      e2.content = some c ∧ e2.encrypted_content = e1.encrypted_content ∧
      e2.is_encrypted = e1.is_encrypted := by
  obtain ⟨hd, _⟩ := EncryptionService.make_ok hsvc
  have hkv := validFernetKey_of_derive hd
  refine ⟨{ content := none,
            encrypted_content := some (.fernet svc.encryption_key n (utf8Encode c)),
            is_encrypted := true },
    { content := some c,
      encrypted_content := some (.fernet svc.encryption_key n (utf8Encode c)),
      is_encrypted := true },
    ?_, rfl, rfl, by simp, ?_, rfl, rfl, rfl⟩
  · unfold encrypt_journal_entry
    simp only [hc]
    rw [if_pos ⟨hcne, hencf⟩]
    simp only [EncryptionService.encrypt, encrypt_data_eq n hcne hkv, Except.map]
  · unfold decrypt_journal_entry_in_place
    rw [if_pos ⟨rfl, rfl⟩]
    simp only [EncryptionService.decrypt, decrypt_data_fernet_same _ n c hkv, Except.map]

/-- C6 witness: a concrete unencrypted entry, encrypted and decrypted back in
place with the service for password `"a"` and the empty salt. -/
theorem journal_encrypt_decrypt_postconditions_witness :
    ∃ e1 e2 : JournalEntry,
      encrypt_journal_entry wPlainEntry wSvcA 7 = .ok e1 ∧
      e1.is_encrypted = true ∧ e1.content = none ∧ e1.encrypted_content ≠ none ∧
      decrypt_journal_entry_in_place e1 wSvcA = .ok e2 ∧
      e2.content = some "Dear diary" ∧ e2.encrypted_content = e1.encrypted_content ∧
      e2.is_encrypted = e1.is_encrypted :=
  journal_encrypt_decrypt_postconditions "a" "" wSvcA wPlainEntry "Dear diary" 7
    rfl rfl (by decide) rfl

/-- C7: a service built from `(p, salt)` verifies the stored hash of the key
derived from `(p, salt)`; a service built from a different password whose
derived key differs rejects that stored hash. -/
theorem verify_key_correctness (p p2 salt : String) (kp kp2 : List Nat)
    (svc svc2 : EncryptionService)
    (hkp : derive_encryption_key p salt = .ok kp)
    (hsvc : EncryptionService.make p salt = .ok svc)
    (hpne : p2 ≠ p)
    (hkp2 : derive_encryption_key p2 salt = .ok kp2)
    (hsvc2 : EncryptionService.make p2 salt = .ok svc2)
    (hkne : kp2 ≠ kp) :
    svc.verify_key (hash_encryption_key kp) = true ∧
    svc2.verify_key (hash_encryption_key kp) = false := by
  obtain ⟨hd, hh⟩ := EncryptionService.make_ok hsvc
  obtain ⟨hd2, hh2⟩ := EncryptionService.make_ok hsvc2
  rw [hd] at hkp
  rw [hd2] at hkp2
  have hk1 := Except.ok.inj hkp
  have hk2 := Except.ok.inj hkp2
  constructor
  · unfold EncryptionService.verify_key
    rw [hh, hk1]
    exact beq_self_eq_true _
  · unfold EncryptionService.verify_key
    rw [hh2, hk2]
    exact beq_eq_false_iff_ne.mpr hkne

/-- C7 witness: the services for passwords `"a"` and `"b"` over the empty
salt; the first accepts the stored hash of its own key, the second rejects
it. -/
theorem verify_key_correctness_witness :
    wSvcA.verify_key (hash_encryption_key (keyFor "a" "")) = true ∧
    wSvcB.verify_key (hash_encryption_key (keyFor "a" "")) = false :=
  verify_key_correctness "a" "b" "" (keyFor "a" "") (keyFor "b" "") wSvcA wSvcB
    rfl rfl (by decide) rfl rfl (by decide)

/-- C8 (amended): `derive_encryption_key` returns the url-safe base64
encoding of a 32-byte derived key: the returned byte string itself is
44 bytes long and encodes exactly 32 raw key bytes (the Fernet key size). -/
theorem derive_key_b64_of_32 (pw salt : String) (k : List Nat)
    (h : derive_encryption_key pw salt = .ok k) :
    k.length = 44 ∧ ∃ raw, raw.length = 32 ∧ k = b64encodeBytes b64UrlChar raw := by
  obtain ⟨sb, _, hk⟩ := derive_encryption_key_ok h
  exact ⟨derive_encryption_key_length h, _, pbkdf2Sha256_length _ _ _ _, hk⟩

/-- C8 witness: the concrete key for password `"x"` and the empty salt. -/
theorem derive_key_b64_of_32_witness :
    (keyFor "x" "").length = 44 ∧
    ∃ raw, raw.length = 32 ∧ keyFor "x" "" = b64encodeBytes b64UrlChar raw :=
  derive_key_b64_of_32 "x" "" (keyFor "x" "") rfl

/-- C8 counterexample: the claim as stated fails — at a concrete input the
returned key is 44 bytes long, not 32 (the 32 bytes are the pre-encoding
size). -/
theorem derive_key_length_44_cex :
    (derive_encryption_key "x" "").map List.length = .ok 44 ∧ (44 : Nat) ≠ 32 :=
  ⟨rfl, by decide⟩

/-- C9: key derivation fails (with its `EncryptionError`) exactly when the
supplied salt is malformed base64; in particular it never fails because of
the password, and succeeds for every password on every well-formed salt. -/
theorem derive_fails_iff_malformed_salt (pw salt : String) :
    (∃ e, derive_encryption_key pw salt = .error e) ↔ b64decodeString salt = none := by
  unfold derive_encryption_key
  cases h : b64decodeString salt <;> simp

/-- C9 witness: the salt `"x"` is malformed (one character cannot form a
base64 group), so derivation fails for a concrete password. -/
theorem derive_fails_iff_malformed_salt_witness :
    ∃ e, derive_encryption_key "p" "x" = .error e :=
  (derive_fails_iff_malformed_salt "p" "x").mpr rfl

/-- C10: `verify_and_get_encryption_key` is a total function that returns the
derived key exactly when the hash of the key derived from the supplied
password and salt equals the stored hash, and `none` in every other case
(key-derivation failure on a malformed salt included). -/
theorem verify_and_get_key_spec (pw salt : String) (stored k : List Nat) :
    verify_and_get_encryption_key pw salt stored = some k ↔
      (derive_encryption_key pw salt = .ok k ∧ hash_encryption_key k = stored) := by
  unfold verify_and_get_encryption_key
  cases h : derive_encryption_key pw salt with
  | error e => simp [h]
  | ok key =>
    by_cases hh : hash_encryption_key key = stored
    · simp only [if_pos hh, Option.some.injEq, Except.ok.injEq]
      constructor
      · rintro rfl
        exact ⟨rfl, hh⟩
      · rintro ⟨rfl, _⟩
        rfl
    · simp only [if_neg hh, Except.ok.injEq]
      constructor
      · intro hcon
        exact absurd hcon (by simp)
      · rintro ⟨rfl, hst⟩
        exact absurd hst hh

end Kai
